import Mathlib

/-!
# Verification of the laddu deployment pipeline (`src/deploy/process.rs`)

Shallow embedding of the batch planner `generate_config_lines`, the
concurrent dispatcher loop `upload_config_lines`, the index bookkeeping of
the batch submitter `add_config_lines`, and the error aggregation performed
by `process_deploy`.

The modules `crate::cache` and `crate::constants` are not part of the
sources at hand (only their callers are), so the cache item shape, the
constants `STRING_LEN_SIZE` and `PARALLEL_LIMIT`, and `Cache::sync_file`
are modelled from the specification; each such definition carries a
`Modelled from the spec:` doc comment.  Everything else is translated
directly from `src/deploy/process.rs`.
-/

set_option autoImplicit false
set_option maxRecDepth 100000

namespace Laddu

/-- A config line of the `magic_hat` program (external crate): a display
name and a metadata URI, both Rust `String`s. -/
structure ConfigLine where
  name : String
  uri : String
deriving DecidableEq, Repr

/-- `MAX_TRANSACTION_BYTES` from `src/deploy/process.rs`: the maximum
config-line bytes per transaction. -/
def MAX_TRANSACTION_BYTES : Nat := 1000

/-- `MAX_TRANSACTION_LINES` from `src/deploy/process.rs`: the maximum
number of config lines per transaction. -/
def MAX_TRANSACTION_LINES : Nat := 17

/-- Modelled from the spec: `STRING_LEN_SIZE`, the fixed per-string
serialization overhead used by `generate_config_lines` (defined in
`crate::constants`, which is not under `src/`).  Borsh length prefix of a
string: 4 bytes. -/
def STRING_LEN_SIZE : Nat := 4

/-- Modelled from the spec: a record of the Record Store (`CacheItem` in
`crate::cache`, not under `src/`) restricted to the fields used by the
deploy pipeline — name, metadata URI and the acceptance flag `on_chain`. -/
structure CacheItem where
  name : String
  metadata_link : String
  on_chain : Bool
deriving DecidableEq, Repr

/-- Modelled from the spec: `CacheItem::into_config_line` builds the config
line from a cache item's name and metadata link (the Rust version returns
`Option` but always succeeds; `process.rs` unwraps it with `expect`). -/
def CacheItem.into_config_line (it : CacheItem) : ConfigLine :=
  ⟨it.name, it.metadata_link⟩

/-- A batch of config lines destined for one transaction:
`Vec<(u32, ConfigLine)>` in the source (indices as `Nat` here). -/
abbrev Batch := List (Nat × ConfigLine)

/-- Marginal serialized size of one config line, as computed inside
`generate_config_lines`:
`(2 * STRING_LEN_SIZE) + config_line.name.len() + config_line.uri.len()`
(Rust `String::len` counts bytes, hence `utf8ByteSize`). -/
def configLineSize (cl : ConfigLine) : Nat :=
  2 * STRING_LEN_SIZE + cl.name.utf8ByteSize + cl.uri.utf8ByteSize

/-- The loop of `generate_config_lines` (`src/deploy/process.rs:336-372`),
one recursive step per iteration of `for i in 0..num_items`.
`remaining` counts the iterations still to run, `i` is the current index,
`config_lines`, `current` and `tx_size` are the mutable state of the loop.
The final `if !current.is_empty() { config_lines.push(current) }` of the
source is performed in the base case. -/
def gclGo (cache_items : Nat → Option CacheItem) :
    Nat → Nat → List Batch → Batch → Nat → Except String (List Batch)
  | 0, _, config_lines, current, _ =>
      .ok (if current.isEmpty then config_lines else config_lines ++ [current])
  | remaining + 1, i, config_lines, current, tx_size =>
      match cache_items i with
      | none => .error ("Missing cache item " ++ toString i)
      | some item =>
        if item.on_chain then
          -- an item already on chain closes the current batch (no gaps)
          if current.isEmpty then
            gclGo cache_items remaining (i + 1) config_lines current tx_size
          else
            gclGo cache_items remaining (i + 1) (config_lines ++ [current]) [] 0
        else
          let cl := item.into_config_line
          let size := configLineSize cl
          if tx_size + size > MAX_TRANSACTION_BYTES ∨
              current.length = MAX_TRANSACTION_LINES then
            gclGo cache_items remaining (i + 1) (config_lines ++ [current])
              [(i, cl)] size
          else
            gclGo cache_items remaining (i + 1) config_lines
              (current ++ [(i, cl)]) (tx_size + size)

/-- `generate_config_lines` (`src/deploy/process.rs:328-379`): determine the
config lines that still need to be uploaded, grouped into transactions. -/
def generate_config_lines (num_items : Nat) (cache_items : Nat → Option CacheItem) :
    Except String (List Batch) :=
  gclGo cache_items num_items 0 [] [] 0

/-- Lookup in a dense record set: the cache of `process_deploy` keyed by
stringified indices `0..num_items-1`, represented as a list in index
order. -/
def denseGet (items : List CacheItem) (i : Nat) : Option CacheItem :=
  items[i]?

/-- The plan computed for a dense record set (the spec's `plan()` view of
`generate_config_lines`, with `num_items` equal to the cache size as
checked by `process_deploy`). -/
def planOf (items : List CacheItem) : Except String (List Batch) :=
  generate_config_lines items.length (denseGet items)

/-- Total serialized payload size of a batch. -/
def batchBytes (b : Batch) : Nat :=
  (b.map (fun p => configLineSize p.2)).sum

/-- The index list of a batch. -/
def batchIndices (b : Batch) : List Nat :=
  b.map Prod.fst

/-- Indices `i, i+1, …` (for `rem` further positions) of the not-yet-accepted
records of a record set, stopping at the first missing index. -/
def unaccGo (items : List CacheItem) : Nat → Nat → List Nat
  | 0, _ => []
  | rem + 1, i =>
      match denseGet items i with
      | none => []
      | some it =>
          if it.on_chain then unaccGo items rem (i + 1)
          else i :: unaccGo items rem (i + 1)

/-- Indices of the not-yet-accepted (`on_chain = false`) records of a dense
record set, in ascending order. -/
def unacceptedIndices (items : List CacheItem) : List Nat :=
  unaccGo items items.length 0

lemma unaccGo_succ_none (items : List CacheItem) (rem i : Nat)
    (h : denseGet items i = none) : unaccGo items (rem + 1) i = [] := by
  conv_lhs => unfold unaccGo
  rw [h]

lemma unaccGo_succ_on (items : List CacheItem) (rem i : Nat) (it : CacheItem)
    (h : denseGet items i = some it) (hc : it.on_chain = true) :
    unaccGo items (rem + 1) i = unaccGo items rem (i + 1) := by
  conv_lhs => unfold unaccGo
  rw [h]; simp [hc]

lemma unaccGo_succ_off (items : List CacheItem) (rem i : Nat) (it : CacheItem)
    (h : denseGet items i = some it) (hc : it.on_chain = false) :
    unaccGo items (rem + 1) i = i :: unaccGo items rem (i + 1) := by
  conv_lhs => unfold unaccGo
  rw [h]; simp [hc]

/-- Membership in `unaccGo`: exactly the in-range indices of records that
are present and not yet accepted. -/
lemma mem_unaccGo (items : List CacheItem) :
    ∀ (rem i j : Nat),
      j ∈ unaccGo items rem i ↔
        i ≤ j ∧ j < i + rem ∧ ∃ it, denseGet items j = some it ∧ it.on_chain = false := by
  intro rem
  induction rem with
  | zero => intro i j; simp [unaccGo]; omega
  | succ rem ih =>
    intro i j
    cases h : denseGet items i with
    | none =>
      rw [unaccGo_succ_none items rem i h]
      simp only [List.not_mem_nil, false_iff]
      rintro ⟨hij, _, it, hit, -⟩
      have hlen : items.length ≤ i := by
        by_contra hlt
        simp [denseGet, List.getElem?_eq_getElem (by omega : i < items.length)] at h
      have : j < items.length := by
        by_contra hge
        simp [denseGet, List.getElem?_eq_none (by omega : items.length ≤ j)] at hit
      omega
    | some it =>
      rcases Bool.eq_false_or_eq_true it.on_chain with hc | hc
      · rw [unaccGo_succ_on items rem i it h hc, ih]
        constructor
        · rintro ⟨h1, h2, hex⟩
          exact ⟨by omega, by omega, hex⟩
        · rintro ⟨h1, h2, hex⟩
          refine ⟨?_, by omega, hex⟩
          rcases Nat.eq_or_lt_of_le h1 with rfl | hlt
          · obtain ⟨it', hit', hoc⟩ := hex
            rw [h, Option.some.injEq] at hit'
            rw [← hit', hc] at hoc
            simp at hoc
          · omega
      · rw [unaccGo_succ_off items rem i it h hc, List.mem_cons, ih]
        constructor
        · rintro (rfl | ⟨h1, h2, hex⟩)
          · exact ⟨le_refl _, by omega, it, h, hc⟩
          · exact ⟨by omega, by omega, hex⟩
        · rintro ⟨h1, h2, hex⟩
          rcases Nat.eq_or_lt_of_le h1 with rfl | hlt
          · exact Or.inl rfl
          · exact Or.inr ⟨by omega, by omega, hex⟩

/-- Every index produced by `unaccGo items rem i` is at least `i`. -/
lemma unaccGo_le (items : List CacheItem) :
    ∀ (rem i : Nat), ∀ j ∈ unaccGo items rem i, i ≤ j := by
  intro rem i j hj
  exact ((mem_unaccGo items rem i j).mp hj).1

/-- The unaccepted indices are produced in strictly ascending order. -/
lemma unaccGo_chain (items : List CacheItem) :
    ∀ (rem i : Nat), List.Chain' (· < ·) (unaccGo items rem i) := by
  intro rem
  induction rem with
  | zero => intro i; simp [unaccGo]
  | succ rem ih =>
    intro i
    cases h : denseGet items i with
    | none => rw [unaccGo_succ_none items rem i h]; simp
    | some it =>
      rcases Bool.eq_false_or_eq_true it.on_chain with hc | hc
      · rw [unaccGo_succ_on items rem i it h hc]
        exact ih (i + 1)
      · rw [unaccGo_succ_off items rem i it h hc]
        refine List.chain'_cons'.mpr ⟨?_, ih (i + 1)⟩
        intro b hb
        have hble : i + 1 ≤ b :=
          unaccGo_le items rem (i + 1) b (List.mem_of_mem_head? hb)
        omega

lemma gclGo_zero (f : Nat → Option CacheItem) (i : Nat) (conf : List Batch)
    (cur : Batch) (tx : Nat) :
    gclGo f 0 i conf cur tx = .ok (if cur.isEmpty then conf else conf ++ [cur]) :=
  rfl

lemma gclGo_succ_none (f : Nat → Option CacheItem) (rem i : Nat)
    (conf : List Batch) (cur : Batch) (tx : Nat) (h : f i = none) :
    gclGo f (rem + 1) i conf cur tx = .error ("Missing cache item " ++ toString i) := by
  conv_lhs => unfold gclGo
  rw [h]

lemma gclGo_succ_on_skip (f : Nat → Option CacheItem) (rem i : Nat)
    (conf : List Batch) (cur : Batch) (tx : Nat) (it : CacheItem)
    (h : f i = some it) (hc : it.on_chain = true) (hcur : cur.isEmpty = true) :
    gclGo f (rem + 1) i conf cur tx = gclGo f rem (i + 1) conf cur tx := by
  conv_lhs => unfold gclGo
  rw [h]; simp [hc, hcur]

lemma gclGo_succ_on_close (f : Nat → Option CacheItem) (rem i : Nat)
    (conf : List Batch) (cur : Batch) (tx : Nat) (it : CacheItem)
    (h : f i = some it) (hc : it.on_chain = true) (hcur : cur.isEmpty = false) :
    gclGo f (rem + 1) i conf cur tx = gclGo f rem (i + 1) (conf ++ [cur]) [] 0 := by
  conv_lhs => unfold gclGo
  rw [h]; simp [hc, hcur]

lemma gclGo_succ_off_close (f : Nat → Option CacheItem) (rem i : Nat)
    (conf : List Batch) (cur : Batch) (tx : Nat) (it : CacheItem)
    (h : f i = some it) (hc : it.on_chain = false)
    (hg : tx + configLineSize it.into_config_line > MAX_TRANSACTION_BYTES ∨
      cur.length = MAX_TRANSACTION_LINES) :
    gclGo f (rem + 1) i conf cur tx =
      gclGo f rem (i + 1) (conf ++ [cur]) [(i, it.into_config_line)]
        (configLineSize it.into_config_line) := by
  conv_lhs => unfold gclGo
  rw [h]; simp only [hc, Bool.false_eq_true, if_false, if_pos hg]

lemma gclGo_succ_off_add (f : Nat → Option CacheItem) (rem i : Nat)
    (conf : List Batch) (cur : Batch) (tx : Nat) (it : CacheItem)
    (h : f i = some it) (hc : it.on_chain = false)
    (hg : ¬ (tx + configLineSize it.into_config_line > MAX_TRANSACTION_BYTES ∨
      cur.length = MAX_TRANSACTION_LINES)) :
    gclGo f (rem + 1) i conf cur tx =
      gclGo f rem (i + 1) conf (cur ++ [(i, it.into_config_line)])
        (tx + configLineSize it.into_config_line) := by
  conv_lhs => unfold gclGo
  rw [h]; simp only [hc, Bool.false_eq_true, if_false, if_neg hg]

/-- A batch acceptable for one transaction: within the byte ceiling, within
the line-count ceiling, and carrying at least one config line. -/
def goodBatch (b : Batch) : Prop :=
  batchBytes b ≤ MAX_TRANSACTION_BYTES ∧ b.length ≤ MAX_TRANSACTION_LINES ∧ b ≠ []

/-- Ceiling-and-nonemptiness invariant of the planner loop, under the
upstream guarantee (enforced by `process_deploy`'s name/URL validation
before planning) that every record's config line fits in one transaction
by itself. -/
lemma gclGo_bounded (items : List CacheItem)
    (H : ∀ it ∈ items, configLineSize it.into_config_line ≤ MAX_TRANSACTION_BYTES) :
    ∀ (rem i : Nat) (conf : List Batch) (cur : Batch) (tx : Nat),
      (∀ b ∈ conf, goodBatch b) →
      batchBytes cur = tx →
      tx ≤ MAX_TRANSACTION_BYTES →
      cur.length ≤ MAX_TRANSACTION_LINES →
      (cur = [] → tx = 0) →
      ∀ out, gclGo (denseGet items) rem i conf cur tx = .ok out →
        ∀ b ∈ out, goodBatch b := by
  intro rem
  induction rem with
  | zero =>
    intro i conf cur tx hconf hbytes htx hlen hemp out hout b hb
    rw [gclGo_zero, Except.ok.injEq] at hout
    subst hout
    by_cases hcur : cur.isEmpty
    · rw [if_pos hcur] at hb
      exact hconf b hb
    · rw [if_neg hcur] at hb
      rcases List.mem_append.mp hb with hmem | hmem
      · exact hconf b hmem
      · have : b = cur := List.mem_singleton.mp hmem
        subst this
        exact ⟨hbytes ▸ htx, hlen, fun hnil => hcur (by simp [hnil])⟩
  | succ rem ih =>
    intro i conf cur tx hconf hbytes htx hlen hemp out hout b hb
    cases h : denseGet items i with
    | none =>
      rw [gclGo_succ_none _ _ _ _ _ _ h] at hout
      cases hout
    | some it =>
      have hmem : it ∈ items := List.getElem?_mem (by simpa [denseGet] using h)
      have hsize : configLineSize it.into_config_line ≤ MAX_TRANSACTION_BYTES := H it hmem
      have hcurgood : cur ≠ [] → goodBatch cur :=
        fun hne => ⟨hbytes ▸ htx, hlen, hne⟩
      have hconfcur : cur ≠ [] → ∀ b' ∈ conf ++ [cur], goodBatch b' := by
        intro hne b' hb'
        rcases List.mem_append.mp hb' with hmem' | hmem'
        · exact hconf b' hmem'
        · exact (List.mem_singleton.mp hmem') ▸ hcurgood hne
      rcases Bool.eq_false_or_eq_true it.on_chain with hc | hc
      · -- item already on chain: close the current batch if nonempty
        by_cases hcur : cur.isEmpty
        · rw [gclGo_succ_on_skip _ _ _ _ _ _ _ h hc hcur] at hout
          exact ih (i + 1) conf cur tx hconf hbytes htx hlen hemp out hout b hb
        · have hcur' : cur.isEmpty = false := by simpa using hcur
          rw [gclGo_succ_on_close _ _ _ _ _ _ _ h hc hcur'] at hout
          have hne : cur ≠ [] := fun hnil => by simp [hnil] at hcur'
          exact ih (i + 1) (conf ++ [cur]) [] 0 (hconfcur hne) rfl (by decide)
            (by decide) (fun _ => rfl) out hout b hb
      · -- item still to upload
        by_cases hg : tx + configLineSize it.into_config_line > MAX_TRANSACTION_BYTES ∨
            cur.length = MAX_TRANSACTION_LINES
        · rw [gclGo_succ_off_close _ _ _ _ _ _ _ h hc hg] at hout
          have hne : cur ≠ [] := by
            intro hnil
            subst hnil
            rcases hg with hg | hg
            · have htx0 : tx = 0 := hemp rfl
              omega
            · simp [MAX_TRANSACTION_LINES] at hg
          have hb1 : batchBytes [(i, it.into_config_line)] =
              configLineSize it.into_config_line := by
            simp [batchBytes]
          have hl1 : ([(i, it.into_config_line)] : Batch).length ≤
              MAX_TRANSACTION_LINES := by
            simp [MAX_TRANSACTION_LINES]
          exact ih (i + 1) (conf ++ [cur]) [(i, it.into_config_line)]
            (configLineSize it.into_config_line) (hconfcur hne) hb1 hsize hl1
            (by intro hx; cases hx) out hout b hb
        · rw [gclGo_succ_off_add _ _ _ _ _ _ _ h hc hg] at hout
          push_neg at hg
          have hb2 : batchBytes (cur ++ [(i, it.into_config_line)]) =
              tx + configLineSize it.into_config_line := by
            simp only [batchBytes, List.map_append, List.sum_append, List.map_cons,
              List.map_nil, List.sum_cons, List.sum_nil] at hbytes ⊢
            omega
          have hl2 : (cur ++ [(i, it.into_config_line)]).length ≤
              MAX_TRANSACTION_LINES := by
            have hne17 : cur.length ≠ MAX_TRANSACTION_LINES := hg.2
            simp only [List.length_append, List.length_singleton]
            revert hne17 hlen
            unfold MAX_TRANSACTION_LINES
            omega
          exact ih (i + 1) conf (cur ++ [(i, it.into_config_line)])
            (tx + configLineSize it.into_config_line) hconf hb2 (by omega) hl2
            (by intro hx; simp at hx) out hout b hb

/-- Concatenation invariant of the planner loop: on a dense record set the
loop succeeds and the indices of its output are the already-closed batches'
indices, then the current batch's, then the unaccepted indices of the
records not yet visited. -/
lemma gclGo_flatten (items : List CacheItem) :
    ∀ (rem i : Nat) (conf : List Batch) (cur : Batch) (tx : Nat),
      i + rem = items.length →
      ∃ out, gclGo (denseGet items) rem i conf cur tx = .ok out ∧
        (out.map batchIndices).flatten =
          (conf.map batchIndices).flatten ++ batchIndices cur ++ unaccGo items rem i := by
  intro rem
  induction rem with
  | zero =>
    intro i conf cur tx _
    by_cases hcur : cur.isEmpty
    · have : cur = [] := List.isEmpty_iff.mp hcur
      subst this
      exact ⟨conf, by simp [gclGo, unaccGo, batchIndices]⟩
    · refine ⟨conf ++ [cur], by simp [gclGo, hcur], ?_⟩
      simp [unaccGo, List.flatten_append]
  | succ rem ih =>
    intro i conf cur tx hlen
    have hi : i < items.length := by omega
    have hget : denseGet items i = some items[i] := by
      simp [denseGet, List.getElem?_eq_getElem hi]
    set it := items[i] with hit
    by_cases hc : it.on_chain
    · by_cases hcur : cur.isEmpty
      · have hcur' : cur = [] := List.isEmpty_iff.mp hcur
        subst hcur'
        obtain ⟨out, hout, hjoin⟩ := ih (i + 1) conf [] tx (by omega)
        refine ⟨out, ?_, ?_⟩
        · simpa [gclGo, hget, hc, hcur] using hout
        · rw [hjoin]
          simp [unaccGo, hget, hc, batchIndices]
      · obtain ⟨out, hout, hjoin⟩ := ih (i + 1) (conf ++ [cur]) [] 0 (by omega)
        refine ⟨out, ?_, ?_⟩
        · simpa [gclGo, hget, hc, hcur] using hout
        · rw [hjoin]
          simp [unaccGo, hget, hc, batchIndices, List.flatten_append, List.append_assoc]
    · set cl := it.into_config_line with hcl
      set size := configLineSize cl with hsize
      by_cases hguard : tx + size > MAX_TRANSACTION_BYTES ∨ cur.length = MAX_TRANSACTION_LINES
      · obtain ⟨out, hout, hjoin⟩ := ih (i + 1) (conf ++ [cur]) [(i, cl)] size (by omega)
        refine ⟨out, ?_, ?_⟩
        · simpa [gclGo, hget, hc, hguard] using hout
        · rw [hjoin]
          simp [unaccGo, hget, hc, batchIndices, List.flatten_append, List.append_assoc]
      · obtain ⟨out, hout, hjoin⟩ := ih (i + 1) conf (cur ++ [(i, cl)]) (tx + size) (by omega)
        refine ⟨out, ?_, ?_⟩
        · simpa [gclGo, hget, hc, hguard] using hout
        · rw [hjoin]
          simp [unaccGo, hget, hc, batchIndices, List.append_assoc]

/-- The pure index bookkeeping of `add_config_lines`
(`src/deploy/process.rs:569-599`): the start index is read from
`tx_info.chunk[0]` (a panic on an empty chunk, modelled as `none`), and on
success the function returns exactly the indices of its chunk. -/
def add_config_lines_indices (chunk : Batch) : Option (Nat × List Nat) :=
  match chunk with
  | [] => none
  | (i, _) :: _ => some (i, batchIndices chunk)

/-- A record whose config line occupies exactly 60 bytes
(2·4 + 20 + 32), matching the spec's §8 example of 60-byte records. -/
def item60 : CacheItem :=
  ⟨String.mk (List.replicate 20 'n'), String.mk (List.replicate 32 'u'), false⟩

/-- Twenty unaccepted 60-byte records (spec §8 example). -/
def items20 : List CacheItem := List.replicate 20 item60

/-- The plan the planner produces for `items20`: 16 records, then 4. -/
def plan20 : List Batch :=
  [(List.range 16).map (fun i => (i, item60.into_config_line)),
   (List.range 4).map (fun k => (16 + k, item60.into_config_line))]

/-- A record whose config line alone exceeds the byte ceiling
(2·4 + 1 + 993 = 1002 > 1000). -/
def oversizedItem : CacheItem :=
  ⟨"n", String.mk (List.replicate 993 'u'), false⟩

/-- Spec §8 example: records 0..4 with record 2 already accepted. -/
def sampleItems : List CacheItem :=
  [⟨"a", "b", false⟩, ⟨"a", "b", false⟩, ⟨"a", "b", true⟩,
   ⟨"a", "b", false⟩, ⟨"a", "b", false⟩]

/-- The plan for `sampleItems`: the accepted record 2 forces a split. -/
def samplePlan : List Batch :=
  [[(0, ⟨"a", "b"⟩), (1, ⟨"a", "b"⟩)], [(3, ⟨"a", "b"⟩), (4, ⟨"a", "b"⟩)]]

/-- C4 (amended): for every dense record set in which each record's
marginal serialized size (`2*STRING_LEN_SIZE + name length + uri length`)
is itself at most `MAX_TRANSACTION_BYTES` — the situation `process_deploy`
guarantees by validating names and URLs before planning — every batch
produced by `generate_config_lines` has total serialized payload at most
`MAX_TRANSACTION_BYTES = 1000` bytes and at most
`MAX_TRANSACTION_LINES = 17` records.  Without the per-record bound the
claim fails, see `plan_byte_ceiling_cex`. -/
theorem plan_batches_within_ceilings (items : List CacheItem)
    (H : ∀ it ∈ items, configLineSize it.into_config_line ≤ MAX_TRANSACTION_BYTES)
    (out : List Batch) (hout : planOf items = .ok out) :
    ∀ b ∈ out, batchBytes b ≤ MAX_TRANSACTION_BYTES ∧
      b.length ≤ MAX_TRANSACTION_LINES := by
  intro b hb
  have hgood := gclGo_bounded items H items.length 0 [] [] 0
    (by intro b' hb'; cases hb') rfl (by decide) (by decide) (fun _ => rfl)
    out hout b hb
  exact ⟨hgood.1, hgood.2.1⟩

/-- C4 witness: the hypotheses and conclusion of
`plan_batches_within_ceilings` hold at the concrete record set `items20`. -/
theorem plan_batches_within_ceilings_witness :
    (∀ it ∈ items20, configLineSize it.into_config_line ≤ MAX_TRANSACTION_BYTES) ∧
    planOf items20 = .ok plan20 ∧
    ∀ b ∈ plan20, batchBytes b ≤ MAX_TRANSACTION_BYTES ∧
      b.length ≤ MAX_TRANSACTION_LINES :=
  ⟨by decide, by rfl, plan_batches_within_ceilings items20 (by decide) plan20 (by rfl)⟩

/-- C4 counterexample: a dense record set containing a single record of
marginal size 1002 bytes yields a plan whose second batch exceeds the byte
ceiling (the claim as stated, without a per-record size bound, is false). -/
theorem plan_byte_ceiling_cex :
    planOf [oversizedItem] = .ok [[], [(0, oversizedItem.into_config_line)]] ∧
    ¬ batchBytes [(0, oversizedItem.into_config_line)] ≤ MAX_TRANSACTION_BYTES :=
  ⟨by rfl, by decide⟩

/-- C5: for every dense record set, concatenating the index lists of the
batches of a successful plan yields exactly the indices of the
not-yet-accepted records, which are strictly ascending; in particular an
already-accepted (`on_chain = true`) record's index never appears in any
batch. -/
theorem plan_indices_exact (items : List CacheItem) (out : List Batch)
    (hout : planOf items = .ok out) :
    (out.map batchIndices).flatten = unacceptedIndices items ∧
    List.Chain' (· < ·) (unacceptedIndices items) ∧
    ∀ b ∈ out, ∀ j ∈ batchIndices b, ∀ it, denseGet items j = some it →
      it.on_chain = false := by
  obtain ⟨out', hout', hjoin⟩ := gclGo_flatten items items.length 0 [] [] 0 (by omega)
  have h0 : gclGo (denseGet items) items.length 0 [] [] 0 = .ok out := hout
  rw [h0, Except.ok.injEq] at hout'
  subst hout'
  have hflat : (out.map batchIndices).flatten = unacceptedIndices items := by
    simpa [batchIndices, unacceptedIndices] using hjoin
  refine ⟨hflat, unaccGo_chain items items.length 0, ?_⟩
  intro b hb j hj it hit
  have hjmem : j ∈ (out.map batchIndices).flatten :=
    List.mem_flatten.mpr ⟨batchIndices b, List.mem_map_of_mem _ hb, hj⟩
  rw [hflat] at hjmem
  obtain ⟨-, -, it', hit', hoc⟩ := (mem_unaccGo items items.length 0 j).mp hjmem
  have : it = it' := by rw [hit] at hit'; exact Option.some.inj hit'
  rw [this]
  exact hoc

/-- C5 witness: the conclusion of `plan_indices_exact` at the spec's §8
example (records 0..4 with record 2 accepted; plan `[[0,1],[3,4]]`). -/
theorem plan_indices_exact_witness :
    planOf sampleItems = .ok samplePlan ∧
    ((samplePlan.map batchIndices).flatten = unacceptedIndices sampleItems ∧
     List.Chain' (· < ·) (unacceptedIndices sampleItems) ∧
     ∀ b ∈ samplePlan, ∀ j ∈ batchIndices b, ∀ it, denseGet sampleItems j = some it →
       it.on_chain = false) :=
  ⟨by rfl, plan_indices_exact sampleItems samplePlan (by rfl)⟩

/-- C6: twenty unaccepted records of marginal size 60 bytes each are split
by the byte ceiling into exactly two batches of 16 records (960 bytes) and
4 records (240 bytes); both batches respect the byte and count ceilings and
together they cover indices 0..19 in order. -/
theorem plan_twenty_records_boundary :
    configLineSize item60.into_config_line = 60 ∧
    planOf items20 = .ok plan20 ∧
    plan20.map List.length = [16, 4] ∧
    plan20.map batchBytes = [960, 240] ∧
    (∀ b ∈ plan20, batchBytes b ≤ MAX_TRANSACTION_BYTES ∧
      b.length ≤ MAX_TRANSACTION_LINES) ∧
    (plan20.map batchIndices).flatten = List.range 20 :=
  ⟨by decide, by rfl, by decide, by decide, by decide, by decide⟩

/-- C10 (amended): for every dense record set in which each record's config
line fits in one transaction by itself, every batch of a successful plan is
non-empty, so `add_config_lines`' unguarded read of `chunk[0]` succeeds on
every batch taken from such a plan.  For an oversized record the planner
does emit an empty batch, see `plan_empty_batch_cex`. -/
theorem plan_batches_nonempty (items : List CacheItem)
    (H : ∀ it ∈ items, configLineSize it.into_config_line ≤ MAX_TRANSACTION_BYTES)
    (out : List Batch) (hout : planOf items = .ok out) :
    ∀ b ∈ out, b ≠ [] ∧ (add_config_lines_indices b).isSome = true := by
  intro b hb
  have hgood := gclGo_bounded items H items.length 0 [] [] 0
    (by intro b' hb'; cases hb') rfl (by decide) (by decide) (fun _ => rfl)
    out hout b hb
  refine ⟨hgood.2.2, ?_⟩
  cases b with
  | nil => exact absurd rfl hgood.2.2
  | cons p r => cases p; rfl

/-- C10 witness: the hypotheses and conclusion of `plan_batches_nonempty`
at the spec's §8 example record set. -/
theorem plan_batches_nonempty_witness :
    (∀ it ∈ sampleItems, configLineSize it.into_config_line ≤ MAX_TRANSACTION_BYTES) ∧
    planOf sampleItems = .ok samplePlan ∧
    ∀ b ∈ samplePlan, b ≠ [] ∧ (add_config_lines_indices b).isSome = true :=
  ⟨by decide, by rfl, plan_batches_nonempty sampleItems (by decide) samplePlan (by rfl)⟩

/-- C10 counterexample: the plan for a single oversized record contains an
empty batch, on which `add_config_lines`' read of `chunk[0]` has no value
(the Rust code would panic). -/
theorem plan_empty_batch_cex :
    planOf [oversizedItem] = .ok [[], [(0, oversizedItem.into_config_line)]] ∧
    ([] : Batch) ∈ [([] : Batch), [(0, oversizedItem.into_config_line)]] ∧
    add_config_lines_indices ([] : Batch) = none :=
  ⟨by rfl, by decide, by rfl⟩

/-- Modelled from the spec: `PARALLEL_LIMIT`, the fixed in-flight pool size
`P` (defined in `crate::constants`, not under `src/`; the spec fixes only
that it is a constant).  The dispatcher is embedded parametrically in `P`
and this value is used for concrete runs. -/
def PARALLEL_LIMIT : Nat := 45

/-- Result of one completed `tokio::spawn(add_config_lines …)` handle, as
seen by `select_all` in the dispatch loop: the task finished and returned
`Ok` (its chunk's indices), the task finished and returned `Err`, or the
join itself failed. -/
inductive Outcome where
  | success
  | failure (msg : String)
  | joinError (msg : String)
deriving DecidableEq, Repr

/-- One completion event of the dispatch loop: which in-flight handle
resolved first (`select_all` may pick any, so the pick is part of the
schedule) and with which outcome. -/
structure Event where
  pick : Nat
  outcome : Outcome
deriving DecidableEq, Repr

/-- Observable actions of `upload_config_lines`, in program order:
spawning a batch submission, flushing the cache file (`cache.sync_file`,
modelled from the spec as an infallible flush of the current items),
marking indices accepted, recording a submission error, and observing the
interruption flag set at the loop head. -/
inductive TraceEv where
  | spawned (batch : Batch)
  | synced (items : List CacheItem)
  | marked (indices : List Nat)
  | failed (msg : String)
  | interruptObserved
deriving DecidableEq, Repr

/-- The mutable state of `upload_config_lines`: remaining unscheduled
batches (`transactions`), in-flight submissions (`handles`, identified by
their batch), the cache items, collected errors, and the observable
trace. -/
structure UState where
  transactions : List Batch
  handles : List Batch
  items : List CacheItem
  errors : List String
  trace : List TraceEv
deriving DecidableEq, Repr

/-- Set `on_chain := true` on the item at one index
(`cache.items.0.get_mut(&index.to_string()).unwrap(); item.on_chain = true`;
an out-of-range index — a panic in Rust — leaves the list unchanged). -/
def setOnChain : List CacheItem → Nat → List CacheItem
  | [], _ => []
  | it :: rest, 0 => { it with on_chain := true } :: rest
  | it :: rest, n + 1 => it :: setOnChain rest n

/-- Mark every index of a successful submission accepted
(`for index in indices { … item.on_chain = true; }`). -/
def markOnChain (items : List CacheItem) (indices : List Nat) : List CacheItem :=
  indices.foldl setOnChain items

/-- Whether the record at index `i` is accepted. -/
def itemAccepted (items : List CacheItem) (i : Nat) : Bool :=
  match items[i]? with
  | some it => it.on_chain
  | none => false

/-- The `select_all` arm of the dispatch loop body
(`src/deploy/process.rs:500-532`): the handle chosen by the event resolves
(the pick is reduced modulo the pool size) and is removed; on task success
its chunk's indices (the return value of `add_config_lines`) are marked
accepted; on a task error or a join error a `Transaction error` is
recorded and all errors are otherwise ignored. -/
def completeOne (ev : Event) (s : UState) : UState :=
  let j := ev.pick % s.handles.length
  let batch := s.handles.getD j []
  let handles' := s.handles.eraseIdx j
  match ev.outcome with
  | .success =>
      { s with handles := handles',
               items := markOnChain s.items (batchIndices batch),
               trace := s.trace ++ [TraceEv.marked (batchIndices batch)] }
  | .failure msg =>
      { s with handles := handles',
               errors := s.errors ++ ["Transaction error: " ++ msg],
               trace := s.trace ++ [TraceEv.failed msg] }
  | .joinError msg =>
      { s with handles := handles',
               errors := s.errors ++ ["Transaction error: " ++ msg],
               trace := s.trace ++ [TraceEv.failed msg] }

/-- The refill tail of the dispatch loop body
(`src/deploy/process.rs:534-547`): if unscheduled batches remain and more
than half the pool has drained
(`PARALLEL_LIMIT - handles.len() > PARALLEL_LIMIT / 2`), the cache file is
flushed (`cache.sync_file()?`) and then up to `PARALLEL_LIMIT / 2` further
batches are drained from `transactions` and spawned. -/
def refill (P : Nat) (s1 : UState) : UState :=
  if s1.transactions.isEmpty then s1
  else if P - s1.handles.length > P / 2 then
    let k := min s1.transactions.length (P / 2)
    let spawned := s1.transactions.take k
    { s1 with transactions := s1.transactions.drop k,
              handles := s1.handles ++ spawned,
              trace := (s1.trace ++ [TraceEv.synced s1.items]) ++ spawned.map TraceEv.spawned }
  else s1

/-- One iteration of the dispatch loop body of `upload_config_lines`
(`src/deploy/process.rs:500-547`), entered with the guard
`!interrupted && !handles.is_empty()` already true: first the completion
handling, then the half-refill check. -/
def dispatchStep (P : Nat) (ev : Event) (s : UState) : UState :=
  refill P (completeOne ev s)

/-- Whether a trace event is a cache flush. -/
def isSyncEv : TraceEv → Bool
  | TraceEv.synced _ => true
  | _ => false

/-- Whether a trace event records acceptances. -/
def isMarkEv : TraceEv → Bool
  | TraceEv.marked _ => true
  | _ => false

/-- Whether a trace event spawns a batch submission. -/
def isSpawnEv : TraceEv → Bool
  | TraceEv.spawned _ => true
  | _ => false

/-- Number of cache flushes (`cache.sync_file` calls) recorded in a trace. -/
def nSyncs (t : List TraceEv) : Nat :=
  t.countP isSyncEv

/-- Number of acceptance-recording events in a trace. -/
def nMarks (t : List TraceEv) : Nat :=
  t.countP isMarkEv

/-- The dispatch loop
`while !interrupted.load(…) && !handles.is_empty() { … }`: the schedule
`sched` provides, for each iteration, the interruption flag value read at
the loop head and the completion event `select_all` delivers.  `fuel`
bounds the iteration count; every entered iteration removes exactly one
handle and moves at most that many batches from `transactions` to
`handles`, so fuel `handles.length + transactions.length + 1` is never
exhausted (see `uploadLoop_fuel`). -/
def uploadLoop (P : Nat) (sched : Nat → Bool × Event) :
    Nat → Nat → UState → UState
  | _, 0, s => s
  | k, fuel + 1, s =>
      let intr := (sched k).1
      if intr then { s with trace := s.trace ++ [TraceEv.interruptObserved] }
      else if s.handles.isEmpty then s
      else uploadLoop P sched (k + 1) fuel (dispatchStep P (sched k).2 s)

/-- The state of `upload_config_lines` after the initial dispatch
(`for tx in transactions.drain(0..cmp::min(transactions.len(), PARALLEL_LIMIT))`):
the first `min(len, P)` batches are spawned, the rest remain unscheduled. -/
def uploadInit (P : Nat) (config_lines : List Batch) (items : List CacheItem) :
    UState :=
  let n := min config_lines.length P
  { transactions := config_lines.drop n,
    handles := config_lines.take n,
    items := items,
    errors := [],
    trace := (config_lines.take n).map TraceEv.spawned }

/-- `upload_config_lines` (`src/deploy/process.rs:458-566`): initial
dispatch, the dispatch loop, then the exit paths — if errors were
collected, the progress bar is abandoned and the errors returned after a
final flush; otherwise, if unscheduled batches remain (an aborted upload),
the function returns the `AddConfigLineFailed` error *without* reaching
the final `cache.sync_file()`; otherwise success is reported and the cache
flushed.  Returns the final state and the function's `Result`. -/
def upload_config_lines (P : Nat) (sched : Nat → Bool × Event)
    (config_lines : List Batch) (items : List CacheItem) :
    UState × Except String (List String) :=
  let s0 := uploadInit P config_lines items
  let s := uploadLoop P sched 0 (s0.handles.length + s0.transactions.length + 1) s0
  if s.errors.isEmpty = false then
    ({ s with trace := s.trace ++ [TraceEv.synced s.items] }, .ok s.errors)
  else if s.transactions.isEmpty = false then
    (s, .error "Not all config lines were deployed.")
  else
    ({ s with trace := s.trace ++ [TraceEv.synced s.items] }, .ok s.errors)

lemma completeOne_transactions (ev : Event) (s : UState) :
    (completeOne ev s).transactions = s.transactions := by
  unfold completeOne
  cases ev.outcome <;> rfl

lemma completeOne_errors_mono (ev : Event) (s : UState) :
    ∃ t, (completeOne ev s).errors = s.errors ++ t := by
  unfold completeOne
  cases ev.outcome with
  | success => exact ⟨[], by simp⟩
  | failure msg => exact ⟨_, rfl⟩
  | joinError msg => exact ⟨_, rfl⟩

lemma completeOne_handles_le (ev : Event) (s : UState) :
    (completeOne ev s).handles.length ≤ s.handles.length := by
  unfold completeOne
  cases ev.outcome <;> exact List.length_eraseIdx_le _ _

lemma completeOne_handles_eq (ev : Event) (s : UState) (hne : s.handles ≠ []) :
    (completeOne ev s).handles.length = s.handles.length - 1 := by
  have hlt : ev.pick % s.handles.length < s.handles.length :=
    Nat.mod_lt _ (List.length_pos.mpr hne)
  unfold completeOne
  cases ev.outcome <;> exact List.length_eraseIdx_of_lt hlt

lemma refill_items (P : Nat) (s1 : UState) : (refill P s1).items = s1.items := by
  unfold refill
  split
  · rfl
  split <;> rfl

lemma refill_errors (P : Nat) (s1 : UState) : (refill P s1).errors = s1.errors := by
  unfold refill
  split
  · rfl
  split <;> rfl

lemma refill_handles_le (P : Nat) (s1 : UState) (h : s1.handles.length ≤ P) :
    (refill P s1).handles.length ≤ P := by
  unfold refill
  by_cases h1 : s1.transactions.isEmpty
  · rw [if_pos h1]; exact h
  · rw [if_neg h1]
    by_cases h2 : P - s1.handles.length > P / 2
    · rw [if_pos h2]
      simp only [List.length_append, List.length_take]
      omega
    · rw [if_neg h2]; exact h

/-- Each loop iteration keeps the in-flight pool within `P`. -/
lemma dispatchStep_handles_le (P : Nat) (ev : Event) (s : UState)
    (h : s.handles.length ≤ P) :
    (dispatchStep P ev s).handles.length ≤ P :=
  refill_handles_le P _ (le_trans (completeOne_handles_le ev s) h)

lemma uploadLoop_handles_le (P : Nat) (sched : Nat → Bool × Event) :
    ∀ (fuel k : Nat) (s : UState), s.handles.length ≤ P →
      (uploadLoop P sched k fuel s).handles.length ≤ P := by
  intro fuel
  induction fuel with
  | zero => intro k s h; exact h
  | succ fuel ih =>
    intro k s h
    simp only [uploadLoop]
    by_cases hintr : (sched k).1 = true
    · rw [if_pos hintr]; exact h
    · rw [if_neg hintr]
      by_cases hemp : s.handles.isEmpty
      · rw [if_pos hemp]; exact h
      · rw [if_neg hemp]
        exact ih (k + 1) _ (dispatchStep_handles_le P _ s h)

lemma uploadInit_handles_le (P : Nat) (cfg : List Batch) (items : List CacheItem) :
    (uploadInit P cfg items).handles.length ≤ P := by
  simp only [uploadInit, List.length_take]
  omega

/-- The non-trace fields of the state returned by `upload_config_lines`
are those of the state in which the dispatch loop finished. -/
lemma upload_final_fields (P : Nat) (sched : Nat → Bool × Event)
    (cfg : List Batch) (items : List CacheItem) :
    (upload_config_lines P sched cfg items).1.handles =
      (uploadLoop P sched 0
        ((uploadInit P cfg items).handles.length +
          (uploadInit P cfg items).transactions.length + 1)
        (uploadInit P cfg items)).handles ∧
    (upload_config_lines P sched cfg items).1.transactions =
      (uploadLoop P sched 0
        ((uploadInit P cfg items).handles.length +
          (uploadInit P cfg items).transactions.length + 1)
        (uploadInit P cfg items)).transactions ∧
    (upload_config_lines P sched cfg items).1.errors =
      (uploadLoop P sched 0
        ((uploadInit P cfg items).handles.length +
          (uploadInit P cfg items).transactions.length + 1)
        (uploadInit P cfg items)).errors ∧
    (upload_config_lines P sched cfg items).1.items =
      (uploadLoop P sched 0
        ((uploadInit P cfg items).handles.length +
          (uploadInit P cfg items).transactions.length + 1)
        (uploadInit P cfg items)).items := by
  simp only [upload_config_lines]
  split
  · exact ⟨rfl, rfl, rfl, rfl⟩
  split
  · exact ⟨rfl, rfl, rfl, rfl⟩
  · exact ⟨rfl, rfl, rfl, rfl⟩

/-- C7: the number of in-flight submissions never exceeds
`P = PARALLEL_LIMIT`: the initial dispatch spawns at most `P` tasks, every
iteration of the dispatch loop (completion plus possible refill) preserves
the bound, and consequently every run of `upload_config_lines` ends with at
most `P` in-flight (the lower bound 0 is inherent in the model). -/
theorem inflight_bounded (P : Nat) (sched : Nat → Bool × Event)
    (cfg : List Batch) (items : List CacheItem) (ev : Event) (s : UState)
    (hs : s.handles.length ≤ P) :
    (uploadInit P cfg items).handles.length ≤ P ∧
    (dispatchStep P ev s).handles.length ≤ P ∧
    (upload_config_lines P sched cfg items).1.handles.length ≤ P := by
  refine ⟨uploadInit_handles_le P cfg items, dispatchStep_handles_le P ev s hs, ?_⟩
  rw [(upload_final_fields P sched cfg items).1]
  exact uploadLoop_handles_le P sched _ 0 _ (uploadInit_handles_le P cfg items)

lemma itemAccepted_nil (i : Nat) : itemAccepted [] i = false := by
  simp [itemAccepted]

lemma itemAccepted_cons_zero (it : CacheItem) (rest : List CacheItem) :
    itemAccepted (it :: rest) 0 = it.on_chain := by
  simp [itemAccepted]

lemma itemAccepted_cons_succ (it : CacheItem) (rest : List CacheItem) (n : Nat) :
    itemAccepted (it :: rest) (n + 1) = itemAccepted rest n := by
  simp [itemAccepted]

lemma itemAccepted_setOnChain_mono :
    ∀ (items : List CacheItem) (j i : Nat), itemAccepted items i = true →
      itemAccepted (setOnChain items j) i = true := by
  intro items
  induction items with
  | nil => intro j i h; simpa [setOnChain] using h
  | cons it rest ih =>
    intro j i h
    cases j with
    | zero =>
      cases i with
      | zero => simp [setOnChain, itemAccepted_cons_zero]
      | succ n => rw [setOnChain, itemAccepted_cons_succ]; rwa [itemAccepted_cons_succ] at h
    | succ m =>
      cases i with
      | zero => rw [setOnChain, itemAccepted_cons_zero]; rwa [itemAccepted_cons_zero] at h
      | succ n =>
        rw [setOnChain, itemAccepted_cons_succ]
        exact ih m n (by rwa [itemAccepted_cons_succ] at h)

lemma itemAccepted_setOnChain_new :
    ∀ (items : List CacheItem) (j i : Nat),
      itemAccepted (setOnChain items j) i = true →
      itemAccepted items i = true ∨ i = j := by
  intro items
  induction items with
  | nil => intro j i h; rw [setOnChain] at h; exact Or.inl h
  | cons it rest ih =>
    intro j i h
    cases j with
    | zero =>
      cases i with
      | zero => exact Or.inr rfl
      | succ n =>
        rw [setOnChain, itemAccepted_cons_succ] at h
        exact Or.inl (by rwa [itemAccepted_cons_succ])
    | succ m =>
      cases i with
      | zero =>
        rw [setOnChain, itemAccepted_cons_zero] at h
        exact Or.inl (by rwa [itemAccepted_cons_zero])
      | succ n =>
        rw [setOnChain, itemAccepted_cons_succ] at h
        rcases ih m n h with h' | h'
        · exact Or.inl (by rwa [itemAccepted_cons_succ])
        · exact Or.inr (by omega)

lemma itemAccepted_markOnChain_mono :
    ∀ (idxs : List Nat) (items : List CacheItem) (i : Nat),
      itemAccepted items i = true →
      itemAccepted (markOnChain items idxs) i = true := by
  intro idxs
  induction idxs with
  | nil => intro items i h; exact h
  | cons j rest ih =>
    intro items i h
    exact ih (setOnChain items j) i (itemAccepted_setOnChain_mono items j i h)

lemma itemAccepted_markOnChain_new :
    ∀ (idxs : List Nat) (items : List CacheItem) (i : Nat),
      itemAccepted (markOnChain items idxs) i = true →
      itemAccepted items i = true ∨ i ∈ idxs := by
  intro idxs
  induction idxs with
  | nil => intro items i h; exact Or.inl h
  | cons j rest ih =>
    intro items i h
    rcases ih (setOnChain items j) i h with h' | h'
    · rcases itemAccepted_setOnChain_new items j i h' with h'' | h''
      · exact Or.inl h''
      · exact Or.inr (by simp [h''])
    · exact Or.inr (List.mem_cons_of_mem _ h')

/-- The cache items after the completion part of a step: unchanged, or —
exactly on task success — the resolved batch's indices marked accepted. -/
lemma completeOne_items (ev : Event) (s : UState) :
    (completeOne ev s).items = s.items ∨
      (ev.outcome = .success ∧ (completeOne ev s).items =
        markOnChain s.items
          (batchIndices (s.handles.getD (ev.pick % s.handles.length) []))) := by
  unfold completeOne
  cases ev.outcome with
  | success => exact Or.inr ⟨rfl, rfl⟩
  | failure msg => exact Or.inl rfl
  | joinError msg => exact Or.inl rfl

lemma dispatchStep_accepted_mono (P : Nat) (ev : Event) (s : UState) (i : Nat)
    (h : itemAccepted s.items i = true) :
    itemAccepted (dispatchStep P ev s).items i = true := by
  rw [dispatchStep, refill_items]
  rcases completeOne_items ev s with he | ⟨-, he⟩
  · rwa [he]
  · rw [he]; exact itemAccepted_markOnChain_mono _ _ _ h

lemma uploadLoop_accepted_mono (P : Nat) (sched : Nat → Bool × Event) :
    ∀ (fuel k : Nat) (s : UState) (i : Nat), itemAccepted s.items i = true →
      itemAccepted (uploadLoop P sched k fuel s).items i = true := by
  intro fuel
  induction fuel with
  | zero => intro k s i h; exact h
  | succ fuel ih =>
    intro k s i h
    simp only [uploadLoop]
    by_cases hintr : (sched k).1 = true
    · rw [if_pos hintr]; exact h
    · rw [if_neg hintr]
      by_cases hemp : s.handles.isEmpty
      · rw [if_pos hemp]; exact h
      · rw [if_neg hemp]
        exact ih (k + 1) _ i (dispatchStep_accepted_mono P _ s i h)

/-- C8: an item's `on_chain` flag turns true only when a completed
submission succeeds and its index list (the resolved batch's indices, as
returned by `add_config_lines`) names that item; no operation of the run
resets it, so the accepted set grows monotonically: preserved by every loop
iteration and across any complete run of `upload_config_lines`. -/
theorem accepted_monotone (P : Nat) (sched : Nat → Bool × Event)
    (cfg : List Batch) (items : List CacheItem) (ev : Event) (s : UState) (i : Nat) :
    (itemAccepted s.items i = true → itemAccepted (dispatchStep P ev s).items i = true) ∧
    (itemAccepted (dispatchStep P ev s).items i = true →
      itemAccepted s.items i = true ∨
        (ev.outcome = .success ∧
          i ∈ batchIndices (s.handles.getD (ev.pick % s.handles.length) []))) ∧
    (itemAccepted items i = true →
      itemAccepted (upload_config_lines P sched cfg items).1.items i = true) := by
  refine ⟨fun h => dispatchStep_accepted_mono P ev s i h, ?_, ?_⟩
  · intro h
    rw [dispatchStep, refill_items] at h
    rcases completeOne_items ev s with he | ⟨hsucc, he⟩
    · rw [he] at h; exact Or.inl h
    · rw [he] at h
      rcases itemAccepted_markOnChain_new _ _ _ h with h' | h'
      · exact Or.inl h'
      · exact Or.inr ⟨hsucc, h'⟩
  · intro h
    rw [(upload_final_fields P sched cfg items).2.2.2]
    exact uploadLoop_accepted_mono P sched _ 0 _ i h

lemma nSyncs_append (a b : List TraceEv) : nSyncs (a ++ b) = nSyncs a + nSyncs b :=
  List.countP_append isSyncEv a b

lemma nSyncs_spawns (l : List Batch) : nSyncs (l.map TraceEv.spawned) = 0 := by
  induction l with
  | nil => rfl
  | cons b rest ih =>
    rw [List.map_cons]
    rw [show (TraceEv.spawned b :: rest.map TraceEv.spawned) =
      [TraceEv.spawned b] ++ rest.map TraceEv.spawned from rfl]
    rw [nSyncs_append, ih]
    rfl

/-- The completion part of a step appends exactly one trace event, which is
neither a flush nor an interruption observation. -/
lemma completeOne_trace (ev : Event) (s : UState) :
    ∃ e, (completeOne ev s).trace = s.trace ++ [e] ∧ isSyncEv e = false ∧
      e ≠ TraceEv.interruptObserved := by
  unfold completeOne
  cases ev.outcome with
  | success => exact ⟨_, rfl, rfl, by simp⟩
  | failure msg => exact ⟨_, rfl, rfl, by simp⟩
  | joinError msg => exact ⟨_, rfl, rfl, by simp⟩

/-- The refill branch taken: unscheduled batches remain and more than half
the pool has drained. -/
lemma refill_eq_of_cond (P : Nat) (s1 : UState)
    (h1 : ¬ s1.transactions.isEmpty = true) (h2 : P - s1.handles.length > P / 2) :
    refill P s1 =
      { s1 with
        transactions := s1.transactions.drop (min s1.transactions.length (P / 2)),
        handles := s1.handles ++ s1.transactions.take (min s1.transactions.length (P / 2)),
        trace := (s1.trace ++ [TraceEv.synced s1.items]) ++
          (s1.transactions.take (min s1.transactions.length (P / 2))).map
            TraceEv.spawned } := by
  unfold refill
  rw [if_neg h1, if_pos h2]

/-- C1 (amended): whenever a completion leaves the in-flight pool more than
half drained (`P - (in-flight) > P / 2`, i.e. in-flight at most `⌊P/2⌋` for
odd `P`) while unscheduled batches remain, the dispatcher flushes the
Record Store at that point (one new `sync` event, recording the
post-completion items) and immediately schedules `min(remaining, ⌊P/2⌋)`
new batches — bringing the in-flight count to
`(in-flight) + min(remaining, ⌊P/2⌋)`, which is at most `P - 1`, not
necessarily back up to `P` (see `half_refill_cex`). -/
theorem half_refill_policy (P : Nat) (ev : Event) (s : UState)
    (hne : s.handles ≠ []) (ht : s.transactions ≠ [])
    (hcond : P - (s.handles.length - 1) > P / 2) :
    (dispatchStep P ev s).handles.length =
      (s.handles.length - 1) + min s.transactions.length (P / 2) ∧
    (dispatchStep P ev s).transactions =
      s.transactions.drop (min s.transactions.length (P / 2)) ∧
    (dispatchStep P ev s).trace[s.trace.length + 1]? =
      some (TraceEv.synced (dispatchStep P ev s).items) ∧
    nSyncs (dispatchStep P ev s).trace = nSyncs s.trace + 1 ∧
    (dispatchStep P ev s).handles.length ≤ P - 1 := by
  have h1 : (completeOne ev s).handles.length = s.handles.length - 1 :=
    completeOne_handles_eq ev s hne
  have h2 : (completeOne ev s).transactions = s.transactions :=
    completeOne_transactions ev s
  obtain ⟨e, htr, hesync, -⟩ := completeOne_trace ev s
  have hne1 : ¬ (completeOne ev s).transactions.isEmpty = true := by
    rw [h2]
    intro hb
    exact ht (List.isEmpty_iff.mp hb)
  have hcond1 : P - (completeOne ev s).handles.length > P / 2 := by
    rw [h1]; exact hcond
  have hstep : dispatchStep P ev s = refill P (completeOne ev s) := rfl
  rw [hstep, refill_eq_of_cond P (completeOne ev s) hne1 hcond1]
  have hklen : ((completeOne ev s).transactions.take
      (min (completeOne ev s).transactions.length (P / 2))).length =
      min s.transactions.length (P / 2) := by
    rw [h2]
    simp
  refine ⟨?_, ?_, ?_, ?_, ?_⟩
  · simp only [List.length_append, hklen, h1]
  · simp only [h2]
  · have hlen1 : ((completeOne ev s).trace).length = s.trace.length + 1 := by
      rw [htr]; simp
    simp only [List.append_assoc]
    rw [List.getElem?_append_right (by omega : ((completeOne ev s).trace).length ≤
      s.trace.length + 1)]
    simp [hlen1]
  · rw [nSyncs_append, nSyncs_append, htr, nSyncs_append, h2]
    have : nSyncs [e] = 0 := by simp [nSyncs, List.countP_cons, hesync]
    rw [this, nSyncs_spawns]
    simp [nSyncs, isSyncEv, List.countP_cons]
  · simp only [List.length_append, hklen, h1]
    omega

lemma interrupt_not_mem_spawns (l : List Batch) :
    TraceEv.interruptObserved ∉ l.map TraceEv.spawned := by
  intro h
  obtain ⟨b, -, hb⟩ := List.mem_map.mp h
  cases hb

/-- Each loop iteration extends the trace without observing an
interruption (the observation happens only at the loop head, on exit). -/
lemma dispatchStep_trace_extend (P : Nat) (ev : Event) (s : UState) :
    ∃ t, (dispatchStep P ev s).trace = s.trace ++ t ∧
      TraceEv.interruptObserved ∉ t := by
  obtain ⟨e, htr, -, hne⟩ := completeOne_trace ev s
  rw [dispatchStep]
  unfold refill
  by_cases h1 : (completeOne ev s).transactions.isEmpty = true
  · rw [if_pos h1, htr]
    refine ⟨[e], rfl, ?_⟩
    intro hmem
    exact hne (List.mem_singleton.mp hmem).symm
  · rw [if_neg h1]
    by_cases h2 : P - (completeOne ev s).handles.length > P / 2
    · rw [if_pos h2]
      refine ⟨[e] ++ [TraceEv.synced (completeOne ev s).items] ++
        ((completeOne ev s).transactions.take
          (min (completeOne ev s).transactions.length (P / 2))).map TraceEv.spawned,
        ?_, ?_⟩
      · simp only [htr, List.append_assoc]
      · simp only [List.mem_append, List.mem_singleton]
        rintro ((hh | hh) | hh)
        · exact hne hh.symm
        · cases hh
        · exact interrupt_not_mem_spawns _ hh
    · rw [if_neg h2, htr]
      refine ⟨[e], rfl, ?_⟩
      intro hmem
      exact hne (List.mem_singleton.mp hmem).symm

/-- Through the dispatch loop, the interruption observation can only be the
last trace event (or absent). -/
lemma uploadLoop_interrupt_last (P : Nat) (sched : Nat → Bool × Event) :
    ∀ (fuel k : Nat) (s : UState), TraceEv.interruptObserved ∉ s.trace →
      (TraceEv.interruptObserved ∉ (uploadLoop P sched k fuel s).trace) ∨
      (∃ w, (uploadLoop P sched k fuel s).trace = w ++ [TraceEv.interruptObserved] ∧
        TraceEv.interruptObserved ∉ w) := by
  intro fuel
  induction fuel with
  | zero => intro k s h; exact Or.inl h
  | succ fuel ih =>
    intro k s h
    simp only [uploadLoop]
    by_cases hintr : (sched k).1 = true
    · rw [if_pos hintr]
      exact Or.inr ⟨s.trace, rfl, h⟩
    · rw [if_neg hintr]
      by_cases hemp : s.handles.isEmpty
      · rw [if_pos hemp]; exact Or.inl h
      · rw [if_neg hemp]
        obtain ⟨t, htr, hnt⟩ := dispatchStep_trace_extend P (sched k).2 s
        refine ih (k + 1) _ ?_
        rw [htr]
        simp only [List.mem_append]
        rintro (hh | hh)
        · exact h hh
        · exact hnt hh

/-- Splitting a list at an element that occurs exactly once. -/
lemma split_at_unique {α : Type} (x : α) :
    ∀ (w rest t1 t2 : List α), x ∉ w → x ∉ rest →
      w ++ x :: rest = t1 ++ x :: t2 → t1 = w ∧ t2 = rest := by
  intro w
  induction w with
  | nil =>
    intro rest t1 t2 _ hrest heq
    cases t1 with
    | nil =>
      simp only [List.nil_append, List.cons.injEq] at heq
      exact ⟨rfl, heq.2.symm⟩
    | cons b t1' =>
      simp only [List.nil_append, List.cons_append, List.cons.injEq] at heq
      obtain ⟨hxb, heq2⟩ := heq
      exact absurd (heq2 ▸ List.mem_append_right t1' (List.mem_cons_self x t2)) hrest
  | cons a w' ih =>
    intro rest t1 t2 hw hrest heq
    cases t1 with
    | nil =>
      simp only [List.cons_append, List.nil_append, List.cons.injEq] at heq
      obtain ⟨hax, -⟩ := heq
      exact absurd (hax ▸ List.mem_cons_self a w') hw
    | cons b t1' =>
      simp only [List.cons_append, List.cons.injEq] at heq
      obtain ⟨hab, heq2⟩ := heq
      have hw' : x ∉ w' := fun hh => hw (List.mem_cons_of_mem _ hh)
      obtain ⟨h1, h2⟩ := ih rest t1' t2 hw' hrest heq2
      exact ⟨by rw [hab, h1], h2⟩

/-- The final trace of `upload_config_lines` is the loop's trace, plus one
final flush on the non-abort exit paths. -/
lemma upload_final_trace (P : Nat) (sched : Nat → Bool × Event)
    (cfg : List Batch) (items : List CacheItem) :
    (upload_config_lines P sched cfg items).1.trace =
      (uploadLoop P sched 0
        ((uploadInit P cfg items).handles.length +
          (uploadInit P cfg items).transactions.length + 1)
        (uploadInit P cfg items)).trace ∨
    (upload_config_lines P sched cfg items).1.trace =
      (uploadLoop P sched 0
        ((uploadInit P cfg items).handles.length +
          (uploadInit P cfg items).transactions.length + 1)
        (uploadInit P cfg items)).trace ++
      [TraceEv.synced (uploadLoop P sched 0
        ((uploadInit P cfg items).handles.length +
          (uploadInit P cfg items).transactions.length + 1)
        (uploadInit P cfg items)).items] := by
  simp only [upload_config_lines]
  split
  · exact Or.inr rfl
  split
  · exact Or.inl rfl
  · exact Or.inr rfl

/-- The run is reported as a plain success (`Ok` with no errors) exactly
when the loop finished with no unscheduled batch and no recorded error. -/
lemma upload_result_ok_iff (P : Nat) (sched : Nat → Bool × Event)
    (cfg : List Batch) (items : List CacheItem) :
    (upload_config_lines P sched cfg items).2 = .ok [] ↔
      (upload_config_lines P sched cfg items).1.transactions = [] ∧
      (upload_config_lines P sched cfg items).1.errors = [] := by
  simp only [upload_config_lines]
  by_cases h1 : (uploadLoop P sched 0
      ((uploadInit P cfg items).handles.length +
        (uploadInit P cfg items).transactions.length + 1)
      (uploadInit P cfg items)).errors.isEmpty = false
  · rw [if_pos h1]
    have hne : (uploadLoop P sched 0
        ((uploadInit P cfg items).handles.length +
          (uploadInit P cfg items).transactions.length + 1)
        (uploadInit P cfg items)).errors ≠ [] := by
      intro hx
      rw [hx] at h1
      simp at h1
    simp [hne]
  · rw [if_neg h1]
    have herr : (uploadLoop P sched 0
        ((uploadInit P cfg items).handles.length +
          (uploadInit P cfg items).transactions.length + 1)
        (uploadInit P cfg items)).errors = [] := by
      rcases hx : (uploadLoop P sched 0
        ((uploadInit P cfg items).handles.length +
          (uploadInit P cfg items).transactions.length + 1)
        (uploadInit P cfg items)).errors with - | ⟨a, l⟩
      · rfl
      · rw [hx] at h1
        simp at h1
    by_cases h2 : (uploadLoop P sched 0
        ((uploadInit P cfg items).handles.length +
          (uploadInit P cfg items).transactions.length + 1)
        (uploadInit P cfg items)).transactions.isEmpty = false
    · rw [if_pos h2]
      have hne2 : (uploadLoop P sched 0
          ((uploadInit P cfg items).handles.length +
            (uploadInit P cfg items).transactions.length + 1)
          (uploadInit P cfg items)).transactions ≠ [] := by
        intro hx
        rw [hx] at h2
        simp at h2
      simp [hne2]
    · rw [if_neg h2]
      have ht2 : (uploadLoop P sched 0
          ((uploadInit P cfg items).handles.length +
            (uploadInit P cfg items).transactions.length + 1)
          (uploadInit P cfg items)).transactions = [] := by
        rcases hx : (uploadLoop P sched 0
          ((uploadInit P cfg items).handles.length +
            (uploadInit P cfg items).transactions.length + 1)
          (uploadInit P cfg items)).transactions with - | ⟨a, l⟩
        · rfl
        · rw [hx] at h2
          simp at h2
      simp [herr, ht2]

/-- C2 (amended): once the interruption flag is observed at the loop head,
no further batch is spawned and no further submission result is recorded —
after the observation the trace contains at most the final flush of the
non-abort exit paths — and the run is reported as a plain success
(`Ok` with an empty error list) exactly when every batch had already been
scheduled and no submission error was recorded; in-flight submissions are
not awaited, so their results are dropped (see `cancellation_drain_cex`). -/
theorem cancellation_no_new_work (P : Nat) (sched : Nat → Bool × Event)
    (cfg : List Batch) (items : List CacheItem) (t1 t2 : List TraceEv)
    (hsplit : (upload_config_lines P sched cfg items).1.trace =
      t1 ++ TraceEv.interruptObserved :: t2) :
    (∀ e ∈ t2, isSpawnEv e = false ∧ isMarkEv e = false) ∧
    ((upload_config_lines P sched cfg items).2 = .ok [] ↔
      (upload_config_lines P sched cfg items).1.transactions = [] ∧
      (upload_config_lines P sched cfg items).1.errors = []) := by
  refine ⟨?_, upload_result_ok_iff P sched cfg items⟩
  have hinit : TraceEv.interruptObserved ∉ (uploadInit P cfg items).trace :=
    interrupt_not_mem_spawns _
  rcases uploadLoop_interrupt_last P sched
      ((uploadInit P cfg items).handles.length +
        (uploadInit P cfg items).transactions.length + 1) 0
      (uploadInit P cfg items) hinit with hno | ⟨w, hw, hnw⟩
  · -- the loop never observed the interruption: contradiction with the split
    rcases upload_final_trace P sched cfg items with hft | hft
    · rw [← hft, hsplit] at hno
      exact absurd (List.mem_append_right t1 (List.mem_cons_self _ _)) hno
    · rw [hsplit] at hft
      have : TraceEv.interruptObserved ∈
          (uploadLoop P sched 0
            ((uploadInit P cfg items).handles.length +
              (uploadInit P cfg items).transactions.length + 1)
            (uploadInit P cfg items)).trace ++
          [TraceEv.synced (uploadLoop P sched 0
            ((uploadInit P cfg items).handles.length +
              (uploadInit P cfg items).transactions.length + 1)
            (uploadInit P cfg items)).items] := by
        rw [← hft]
        exact List.mem_append_right t1 (List.mem_cons_self _ _)
      rcases List.mem_append.mp this with hh | hh
      · exact absurd hh hno
      · cases List.mem_singleton.mp hh
  · -- the loop's trace ends with the observation
    rcases upload_final_trace P sched cfg items with hft | hft
    · have heq : w ++ TraceEv.interruptObserved :: ([] : List TraceEv) =
          t1 ++ TraceEv.interruptObserved :: t2 := by
        rw [← hsplit, hft, hw]
      have := split_at_unique TraceEv.interruptObserved w [] t1 t2 hnw
        (List.not_mem_nil _) heq
      rw [this.2]
      intro e he
      cases he
    · have heq : w ++ TraceEv.interruptObserved ::
          [TraceEv.synced (uploadLoop P sched 0
            ((uploadInit P cfg items).handles.length +
              (uploadInit P cfg items).transactions.length + 1)
            (uploadInit P cfg items)).items] = t1 ++ TraceEv.interruptObserved :: t2 := by
        rw [← hsplit, hft, hw]
        simp
      have := split_at_unique TraceEv.interruptObserved w _ t1 t2 hnw
        (by intro hh; cases List.mem_singleton.mp hh) heq
      rw [this.2]
      intro e he
      rw [List.mem_singleton.mp he]
      exact ⟨rfl, rfl⟩

/-- A trivially small config line used in the concrete dispatcher runs. -/
def cl0 : ConfigLine := ⟨"", ""⟩

/-- A schedule whose completions always resolve the first in-flight handle
successfully, with the interruption flag observed set from iteration 23 on
(it is cleared by `process_deploy` before the upload starts). -/
def sched23 (k : Nat) : Bool × Event :=
  if k < 23 then (false, ⟨0, Outcome.success⟩) else (true, ⟨0, Outcome.success⟩)

/-- A schedule on which the interruption flag is observed set at the very
first loop head. -/
def schedIntr : Nat → Bool × Event := fun _ => (true, ⟨0, Outcome.success⟩)

/-- 68 singleton batches: with `PARALLEL_LIMIT = 45`, the initial dispatch
spawns 45 and 23 remain unscheduled. -/
def cexBatches68 : List Batch := (List.range 68).map (fun i => [(i, cl0)])

/-- 68 unaccepted records backing `cexBatches68`. -/
def cexItems68 : List CacheItem := List.replicate 68 ⟨"", "", false⟩

/-- C1 witness: the hypotheses and conclusion of `half_refill_policy` at a
concrete state — 23 in-flight handles, 23 unscheduled batches, `P = 45`;
after the completion 22 remain, the refill flushes once and spawns 22,
reaching 44 in flight. -/
def wRefillState : UState :=
  { transactions := (List.range 23).map (fun i => [(45 + i, cl0)]),
    handles := (List.range 23).map (fun i => [(i, cl0)]),
    items := cexItems68,
    errors := [],
    trace := [] }

theorem half_refill_policy_witness :
    (wRefillState.handles ≠ [] ∧ wRefillState.transactions ≠ [] ∧
      45 - (wRefillState.handles.length - 1) > 45 / 2) ∧
    ((dispatchStep 45 ⟨0, Outcome.success⟩ wRefillState).handles.length =
      (wRefillState.handles.length - 1) +
        min wRefillState.transactions.length (45 / 2) ∧
    (dispatchStep 45 ⟨0, Outcome.success⟩ wRefillState).transactions =
      wRefillState.transactions.drop (min wRefillState.transactions.length (45 / 2)) ∧
    (dispatchStep 45 ⟨0, Outcome.success⟩ wRefillState).trace[wRefillState.trace.length + 1]? =
      some (TraceEv.synced (dispatchStep 45 ⟨0, Outcome.success⟩ wRefillState).items) ∧
    nSyncs (dispatchStep 45 ⟨0, Outcome.success⟩ wRefillState).trace =
      nSyncs wRefillState.trace + 1 ∧
    (dispatchStep 45 ⟨0, Outcome.success⟩ wRefillState).handles.length ≤ 45 - 1) :=
  ⟨⟨by decide, by decide, by decide⟩,
   half_refill_policy 45 ⟨0, Outcome.success⟩ wRefillState (by decide) (by decide)
     (by decide)⟩

/-- C1 counterexample: with `P = PARALLEL_LIMIT = 45` and 68 batches, the
pool drains from 45 to 22 over 23 completions; the refill then flushes
(exactly one `sync`) and spawns 22 further batches, leaving 44 — not
`P = 45` — in flight even though one batch is still unscheduled (the run is
frozen right after the refill by an interruption at the next loop head), so
the refill does not bring the pool back up to `P`. -/
theorem half_refill_cex :
    (upload_config_lines PARALLEL_LIMIT sched23 cexBatches68 cexItems68).1.handles.length
      = 44 ∧
    (upload_config_lines PARALLEL_LIMIT sched23 cexBatches68 cexItems68).1.transactions
      ≠ [] ∧
    nSyncs (upload_config_lines PARALLEL_LIMIT sched23 cexBatches68 cexItems68).1.trace
      = 1 ∧
    44 < PARALLEL_LIMIT :=
  ⟨by rfl, by decide, by rfl, by decide⟩

/-- One batch, one record: the interruption is observed at the first loop
head with the batch in flight and nothing unscheduled. -/
def cfg1 : List Batch := [[(0, cl0)]]

/-- The single record backing `cfg1`. -/
def items1 : List CacheItem := [⟨"", "", false⟩]

theorem cancellation_no_new_work_witness :
    (upload_config_lines PARALLEL_LIMIT schedIntr cfg1 items1).1.trace =
      [TraceEv.spawned [(0, cl0)]] ++ TraceEv.interruptObserved ::
        [TraceEv.synced items1] ∧
    ((∀ e ∈ [TraceEv.synced items1], isSpawnEv e = false ∧ isMarkEv e = false) ∧
     ((upload_config_lines PARALLEL_LIMIT schedIntr cfg1 items1).2 = .ok [] ↔
       (upload_config_lines PARALLEL_LIMIT schedIntr cfg1 items1).1.transactions = [] ∧
       (upload_config_lines PARALLEL_LIMIT schedIntr cfg1 items1).1.errors = [])) :=
  ⟨by rfl,
   cancellation_no_new_work PARALLEL_LIMIT schedIntr cfg1 items1
     [TraceEv.spawned [(0, cl0)]] [TraceEv.synced items1] (by rfl)⟩

/-- Two batches, both spawned immediately (nothing unscheduled). -/
def cfg2 : List Batch := [[(0, cl0)], [(1, cl0)]]

/-- The two records backing `cfg2`. -/
def items2 : List CacheItem := List.replicate 2 ⟨"", "", false⟩

/-- C2 counterexample: the flag is observed set while both dispatched
batches are still in flight; the loop exits at once — the in-flight
submissions are not awaited and nothing is recorded (no `marked` event ever
occurs, record 0 stays unaccepted) — and, since every batch had been
scheduled and no error was collected, the run returns `Ok []`: it is
reported as a success, not as incomplete. -/
theorem cancellation_drain_cex :
    (upload_config_lines PARALLEL_LIMIT schedIntr cfg2 items2).2 = .ok [] ∧
    (upload_config_lines PARALLEL_LIMIT schedIntr cfg2 items2).1.handles.length = 2 ∧
    TraceEv.interruptObserved ∈
      (upload_config_lines PARALLEL_LIMIT schedIntr cfg2 items2).1.trace ∧
    nMarks (upload_config_lines PARALLEL_LIMIT schedIntr cfg2 items2).1.trace = 0 ∧
    itemAccepted (upload_config_lines PARALLEL_LIMIT schedIntr cfg2 items2).1.items 0
      = false :=
  ⟨by rfl, by rfl, by decide, by rfl, by rfl⟩

/-- 46 singleton batches: 45 spawned at start, one left unscheduled. -/
def cfg46 : List Batch := (List.range 46).map (fun i => [(i, cl0)])

/-- 46 unaccepted records backing `cfg46`. -/
def items46 : List CacheItem := List.replicate 46 ⟨"", "", false⟩

/-- C3: on the abort exit path — interruption observed while unscheduled
batches remain and no submission error was recorded — `upload_config_lines`
returns the `AddConfigLineFailed` error from line 554 of
`src/deploy/process.rs` *before* the final `cache.sync_file()` at line 563,
so the Record Store is not flushed on this exit path: this run's trace
contains no flush event at all. -/
theorem abort_path_skips_flush :
    (upload_config_lines PARALLEL_LIMIT schedIntr cfg46 items46).2 =
      .error "Not all config lines were deployed." ∧
    (upload_config_lines PARALLEL_LIMIT schedIntr cfg46 items46).1.transactions ≠ [] ∧
    nSyncs (upload_config_lines PARALLEL_LIMIT schedIntr cfg46 items46).1.trace = 0 :=
  ⟨by rfl, by decide, by rfl⟩

/-- C7 witness: the hypothesis and conclusions of `inflight_bounded` at
concrete inputs (`P = 45`, two batches, a 23-handle state). -/
theorem inflight_bounded_witness :
    wRefillState.handles.length ≤ 45 ∧
    ((uploadInit 45 cfg2 items2).handles.length ≤ 45 ∧
     (dispatchStep 45 ⟨0, Outcome.success⟩ wRefillState).handles.length ≤ 45 ∧
     (upload_config_lines 45 schedIntr cfg2 items2).1.handles.length ≤ 45) :=
  ⟨by decide,
   inflight_bounded 45 schedIntr cfg2 items2 ⟨0, Outcome.success⟩ wRefillState
     (by decide)⟩

/-- A two-record cache whose record 0 is already accepted. -/
def wItemsC8 : List CacheItem := [⟨"a", "b", true⟩, ⟨"c", "d", false⟩]

/-- A dispatcher state with one in-flight batch naming index 1. -/
def wStateC8 : UState := ⟨[], [[(1, ⟨"c", "d"⟩)]], wItemsC8, [], []⟩

/-- The completion event resolving that batch successfully. -/
def wEventC8 : Event := ⟨0, Outcome.success⟩

/-- C8 witness: the hypotheses and conclusions of `accepted_monotone` at
concrete inputs — the already-accepted record 0 stays accepted through a
step and through a full run, and record 1 becomes accepted only through the
successful completion of the batch naming index 1. -/
theorem accepted_monotone_witness :
    (itemAccepted wStateC8.items 0 = true ∧
     itemAccepted (dispatchStep 45 wEventC8 wStateC8).items 0 = true) ∧
    (itemAccepted (dispatchStep 45 wEventC8 wStateC8).items 1 = true ∧
     (itemAccepted wStateC8.items 1 = true ∨
       (wEventC8.outcome = Outcome.success ∧
        1 ∈ batchIndices
          (wStateC8.handles.getD (wEventC8.pick % wStateC8.handles.length) [])))) ∧
    (itemAccepted wItemsC8 0 = true ∧
     itemAccepted (upload_config_lines 45 schedIntr cfg2 wItemsC8).1.items 0 = true) :=
  ⟨⟨by decide,
    (accepted_monotone 45 schedIntr cfg2 wItemsC8 wEventC8 wStateC8 0).1 (by decide)⟩,
   ⟨by decide,
    (accepted_monotone 45 schedIntr cfg2 wItemsC8 wEventC8 wStateC8 1).2.1 (by decide)⟩,
   ⟨by decide,
    (accepted_monotone 45 schedIntr cfg2 wItemsC8 wEventC8 wStateC8 0).2.2 (by decide)⟩⟩

/-- The HashSet deduplication of `process_deploy`'s error aggregation
(`src/deploy/process.rs:232-236`), modelled in first-occurrence order:
each distinct message text appears once. -/
def uniqueMessages (errors : List String) : List String :=
  errors.foldl (fun acc m => if m ∈ acc then acc else acc ++ [m]) []

/-- The composite `AddConfigLineFailed` message built by `process_deploy`
(`src/deploy/process.rs:225-243`): a header carrying the total number of
failures, then each distinct error message once, prefixed by `"\n=> "`
(the terminal styling is omitted; `HashSet` iteration order is unspecified
in Rust and fixed here to first occurrence). -/
def compositeErrorMessage (errors : List String) : String :=
  "Failed to deploy all config lines, " ++ toString errors.length ++
    " error(s) occurred:" ++
    String.join ((uniqueMessages errors).map (fun u => "\n=> " ++ u))

lemma mem_dedupFold :
    ∀ (l acc : List String) (m : String),
      m ∈ l.foldl (fun acc m => if m ∈ acc then acc else acc ++ [m]) acc ↔
        m ∈ acc ∨ m ∈ l := by
  intro l
  induction l with
  | nil => intro acc m; simp
  | cons a l' ih =>
    intro acc m
    rw [List.foldl_cons, ih]
    by_cases ha : a ∈ acc
    · rw [if_pos ha]
      constructor
      · rintro (h | h)
        · exact Or.inl h
        · exact Or.inr (List.mem_cons_of_mem _ h)
      · rintro (h | h)
        · exact Or.inl h
        · rcases List.mem_cons.mp h with rfl | h
          · exact Or.inl ha
          · exact Or.inr h
    · rw [if_neg ha]
      constructor
      · rintro (h | h)
        · rcases List.mem_append.mp h with h | h
          · exact Or.inl h
          · rw [List.mem_singleton.mp h]
            exact Or.inr (List.mem_cons_self _ _)
        · exact Or.inr (List.mem_cons_of_mem _ h)
      · rintro (h | h)
        · exact Or.inl (List.mem_append_left _ h)
        · rcases List.mem_cons.mp h with rfl | h
          · exact Or.inl (List.mem_append_right _ (List.mem_singleton_self _))
          · exact Or.inr h

lemma nodup_dedupFold :
    ∀ (l acc : List String), acc.Nodup →
      (l.foldl (fun acc m => if m ∈ acc then acc else acc ++ [m]) acc).Nodup := by
  intro l
  induction l with
  | nil => intro acc h; exact h
  | cons a l' ih =>
    intro acc h
    rw [List.foldl_cons]
    by_cases ha : a ∈ acc
    · rw [if_pos ha]; exact ih acc h
    · rw [if_neg ha]
      refine ih _ (List.nodup_append.mpr ⟨h, List.nodup_singleton a, ?_⟩)
      intro x hx hxa
      rw [List.mem_singleton.mp hxa] at hx
      exact ha hx

/-- C9: when the upload run finishes with one or more submission errors,
`process_deploy` raises a single composite `AddConfigLineFailed` error
whose header carries the total number of failures (`errors.len()`) and
whose body lists each distinct error message exactly once, deduplicated by
message text. -/
theorem deploy_error_aggregation (errors : List String) (hne : errors ≠ []) :
    0 < errors.length ∧
    (uniqueMessages errors).Nodup ∧
    (∀ m, m ∈ uniqueMessages errors ↔ m ∈ errors) ∧
    compositeErrorMessage errors =
      "Failed to deploy all config lines, " ++ toString errors.length ++
        " error(s) occurred:" ++
        String.join ((uniqueMessages errors).map (fun u => "\n=> " ++ u)) := by
  refine ⟨List.length_pos.mpr hne, nodup_dedupFold errors [] List.nodup_nil, ?_, rfl⟩
  intro m
  rw [uniqueMessages, mem_dedupFold]
  simp

/-- C9 witness: `deploy_error_aggregation` at the error list
`["a", "b", "a"]` (three failures, two distinct messages). -/
theorem deploy_error_aggregation_witness :
    (["a", "b", "a"] : List String) ≠ [] ∧
    (0 < (["a", "b", "a"] : List String).length ∧
     (uniqueMessages ["a", "b", "a"]).Nodup ∧
     (∀ m, m ∈ uniqueMessages ["a", "b", "a"] ↔ m ∈ (["a", "b", "a"] : List String)) ∧
     compositeErrorMessage ["a", "b", "a"] =
       "Failed to deploy all config lines, " ++
         toString (["a", "b", "a"] : List String).length ++
         " error(s) occurred:" ++
         String.join ((uniqueMessages ["a", "b", "a"]).map (fun u => "\n=> " ++ u))) :=
  ⟨by decide, deploy_error_aggregation ["a", "b", "a"] (by decide)⟩

end Laddu
